import Mathlib

/-!
Verification of the railway-app route-search service (`src/app.py`).

The Python code manipulates clock times as `"HH:MM"` strings, converts them
to minutes-since-midnight integers, greedily matches next trains, and
enumerates three-leg itineraries.  We embed the program shallowly:

* Python strings are `List Char` (type `Str`), so `str.split`, `int(...)`
  and f-string formatting are modelled by explicit executable functions
  with exactly Python's observable behaviour on the relevant domain.
* Python integers are `Int`; Python `//` and `%` (floor division) are
  `Int.fdiv` / `Int.fmod`.
* Python exceptions (e.g. `int` raising `ValueError` on malformed input,
  which aborts the request) are modelled with `Option`: `none` means the
  computation raised.
-/

/-- Python strings, embedded as their lists of code points. -/
abbrev Str := List Char

/-- The decimal digit character for `d` (`0 ≤ d ≤ 9`), i.e. code point `48 + d`. -/
def digitChar (d : Nat) : Char := Char.ofNat (48 + d)

/-- Structural (fuel-indexed) helper for `natDigits`; the fuel always
suffices because a number's digit count is at most the number itself. -/
def natDigitsAux : Nat → Nat → Str
  | 0, _ => []
  | fuel + 1, n =>
    if n < 10 then [digitChar n]
    else natDigitsAux fuel (n / 10) ++ [digitChar (n % 10)]

/-- Decimal digit list of a natural number, most significant first:
the code points produced by Python `str(n)` for `n ≥ 0`. -/
def natDigits (n : Nat) : Str := natDigitsAux (n + 1) n

theorem natDigitsAux_irrel :
    ∀ fuel1 fuel2 n, n < fuel1 → n < fuel2 →
      natDigitsAux fuel1 n = natDigitsAux fuel2 n := by
  intro fuel1
  induction fuel1 with
  | zero => intro fuel2 n h1 _; omega
  | succ f1 ih =>
    intro fuel2 n h1 h2
    cases fuel2 with
    | zero => omega
    | succ f2 =>
      simp only [natDigitsAux]
      by_cases h10 : n < 10
      · rw [if_pos h10, if_pos h10]
      · rw [if_neg h10, if_neg h10, ih f2 (n / 10) (by omega) (by omega)]

/-- The defining recurrence of `natDigits`. -/
theorem natDigits_eq (n : Nat) :
    natDigits n =
      if n < 10 then [digitChar n]
      else natDigits (n / 10) ++ [digitChar (n % 10)] := by
  unfold natDigits
  simp only [natDigitsAux]
  by_cases h10 : n < 10
  · rw [if_pos h10, if_pos h10]
  · rw [if_neg h10, if_neg h10]
    congr 1
    exact natDigitsAux_irrel n (n / 10 + 1) (n / 10) (by omega) (by omega)

/-- Python `str(i)` for an `int` `i` (decimal, `-` sign for negatives). -/
def intToString (i : Int) : Str :=
  if i < 0 then '-' :: natDigits i.natAbs else natDigits i.toNat

/-- Python `f"{n:02d}"`: decimal representation left-padded with `0`
to a minimum width of two characters. -/
def pad2 (n : Int) : Str :=
  if (intToString n).length < 2 then '0' :: intToString n else intToString n

/-- The numeric value of a decimal digit character, `none` for a non-digit.
Models the per-character acceptance of Python `int(...)`. -/
def digitVal (c : Char) : Option Nat :=
  if 48 ≤ c.toNat ∧ c.toNat ≤ 57 then some (c.toNat - 48) else none

/-- Accumulating evaluation of a decimal digit string. -/
def digitsValGo (acc : Nat) : Str → Option Nat
  | [] => some acc
  | c :: cs =>
    match digitVal c with
    | some d => digitsValGo (10 * acc + d) cs
    | none => none

/-- Value of a non-empty string of decimal digits, `none` otherwise. -/
def digitsVal : Str → Option Nat
  | [] => none
  | s => digitsValGo 0 s

/-- Python `int(s)` on a string, modelled on the domain of optionally
signed decimal literals: an optional `+`/`-` sign followed by a non-empty
run of digits; everything else raises `ValueError` (= `none`).
(Surrounding whitespace and underscore separators, which Python also
accepts, do not occur in this program's inputs and are not modelled.) -/
def pyInt (s : Str) : Option Int :=
  match s with
  | '-' :: rest => (digitsVal rest).map (fun n => -(n : Int))
  | '+' :: rest => (digitsVal rest).map (fun n => (n : Int))
  | _ => (digitsVal s).map (fun n => (n : Int))

/-- Python `s.split(sep)` for a one-character separator `sep`:
splits at every occurrence, keeping empty pieces (`"".split(":") == [""]`). -/
def splitOnChar (sep : Char) : Str → List Str
  | [] => [[]]
  | c :: cs =>
    if c = sep then [] :: splitOnChar sep cs
    else
      match splitOnChar sep cs with
      | [] => [[c]]
      | p :: ps => (c :: p) :: ps

/-- `parse_hhmm_to_minutes` (`app.py` lines 66-69):
`h, m = map(int, hhmm.split(":")); return h * 60 + m`.
Raises (= `none`) when the split does not give exactly two
integer-parsable fields. -/
def parse_hhmm_to_minutes (hhmm : Str) : Option Int :=
  match splitOnChar ':' hhmm with
  | [hs, ms] => do
    let h ← pyInt hs
    let m ← pyInt ms
    some (h * 60 + m)
  | _ => none

/-- `minutes_to_hhmm` (`app.py` lines 71-75):
`h = minutes // 60; m = minutes % 60; return f"{h:02d}:{m:02d}"`. -/
def minutes_to_hhmm (minutes : Int) : Str :=
  pad2 (minutes.fdiv 60) ++ ':' :: pad2 (minutes.fmod 60)

/-- One timetable row: `{"departure": "07:00", "arrival": "07:12"}`. -/
structure Train where
  departure : Str
  arrival : Str
deriving DecidableEq, Repr

/-- The body of the `for t in trains` loop of `find_next_train`
(`app.py` lines 85-90): replace the candidate when the train departs at
or after the bound and beats the current candidate
(`if candidate is None or dep_min < candidate_dep_min`). -/
def find_next_train_step (earliest : Int) (cand : Option (Train × Int))
    (t : Train) (dep_min : Int) : Option (Train × Int) :=
  if earliest ≤ dep_min then
    match cand with
    | none => some (t, dep_min)
    | some (c, cdep) =>
      if dep_min < cdep then some (t, dep_min) else some (c, cdep)
  else cand

/-- The loop of `find_next_train`, carrying `candidate` and
`candidate_dep_min` (as a pair); outer `none` models a `ValueError`
escaping from `parse_hhmm_to_minutes` on a malformed departure. -/
def find_next_train_go (earliest : Int) :
    List Train → Option (Train × Int) → Option (Option (Train × Int))
  | [], cand => some cand
  | t :: ts, cand =>
    match parse_hhmm_to_minutes t.departure with
    | none => none
    | some dep_min =>
      find_next_train_go earliest ts (find_next_train_step earliest cand t dep_min)

/-- `find_next_train` (`app.py` lines 77-92): linear scan keeping the
candidate with the smallest departure `≥ earliest_departure_min`;
`some none` is Python's `None` result, outer `none` a raised exception. -/
def find_next_train (trains : List Train) (earliest_departure_min : Int) :
    Option (Option Train) :=
  (find_next_train_go earliest_departure_min trains none).map
    (fun c => c.map Prod.fst)

/-- `TRANSFER_MINUTES["溜池山王"]` (`app.py` line 58), the station-A
(Tameike-Sannō) transfer buffer. -/
def TRANSFER_MINUTES_tameike : Int := 5

/-- `TRANSFER_MINUTES["新橋"]` (`app.py` line 59), the station-B
(Shimbashi) transfer buffer. -/
def TRANSFER_MINUTES_shimbashi : Int := 7

/-- One leg's entry of `TIMETABLE`: station/line metadata plus the
loaded train list. -/
structure Leg where
  from_station : Str
  to_station : Str
  line : Str
  trains : List Train
deriving DecidableEq, Repr

/-- One element of a route's `"transfers"` list. -/
structure Transfer where
  from_station : Str
  to_station : Str
  line : Str
  departure : Str
  arrival : Str
deriving DecidableEq, Repr

/-- One element of the `"routes"` list built by `api_routes`. -/
structure Route where
  departure_time : Str
  arrival_time : Str
  total_duration : Str
  fare : Str
  transfers : List Transfer
deriving DecidableEq, Repr

/-- The response object serialized by `api_routes` (the two echoed
wall-clock timestamp strings are formatting of the ambient `datetime`,
outside the embedded computation, and are omitted). -/
structure ApiResponse where
  max_offset_minutes : Int
  routes : List Route
deriving DecidableEq, Repr

/-- The `max_offset` parameter handling of `api_routes`
(`app.py` lines 116-124): absent parameter defaults to `30`,
a present but non-integer value falls back to `3` via the
`except ValueError` branch, and the result is clamped into `[0, 60]`. -/
def effective_max_offset (raw : Option Str) : Int :=
  let mo : Int :=
    match raw with
    | none => 30
    | some s => (pyInt s).getD 3
  let mo := if mo < 0 then 0 else mo
  if mo > 60 then 60 else mo

/-- One entry of a route's `"transfers"` list (`app.py` lines 190-210). -/
def mk_transfer (leg : Leg) (t : Train) : Transfer :=
  { from_station := leg.from_station, to_station := leg.to_station,
    line := leg.line, departure := t.departure, arrival := t.arrival }

/-- The `route = {...}` dictionary built for one feasible chain
(`app.py` lines 178-212): formatted times, `f"{total_duration_min}分"`
duration text, the dummy fare string, and the three transfer records. -/
def mk_route (first_leg second_leg third_leg : Leg) (t1 t2 t3 : Train)
    (dep1_min arr3_min : Int) : Route :=
  { departure_time := minutes_to_hhmm dep1_min,
    arrival_time := minutes_to_hhmm arr3_min,
    total_duration := intToString (arr3_min - dep1_min) ++ ['分'],
    fare := "（料金未設定）".data,
    transfers := [mk_transfer first_leg t1, mk_transfer second_leg t2,
                  mk_transfer third_leg t3] }

/-- The `for t1 in first_leg["trains"]` loop of `api_routes`
(`app.py` lines 149-214), building the unsorted `routes` list;
`none` models an exception escaping the handler. -/
def routes_loop (first_leg second_leg third_leg : Leg)
    (base_minutes latest_minutes : Int) : List Train → Option (List Route)
  | [] => some []
  | t1 :: ts => do
    let dep1_min ← parse_hhmm_to_minutes t1.departure
    if dep1_min < base_minutes ∨ latest_minutes < dep1_min then
      routes_loop first_leg second_leg third_leg base_minutes latest_minutes ts
    else do
      let arr1_min ← parse_hhmm_to_minutes t1.arrival
      let earliest_dep2_min := arr1_min + TRANSFER_MINUTES_tameike
      match ← find_next_train second_leg.trains earliest_dep2_min with
      | none =>
        routes_loop first_leg second_leg third_leg base_minutes latest_minutes ts
      | some t2 => do
        let _dep2_min ← parse_hhmm_to_minutes t2.departure
        let arr2_min ← parse_hhmm_to_minutes t2.arrival
        let earliest_dep3_min := arr2_min + TRANSFER_MINUTES_shimbashi
        match ← find_next_train third_leg.trains earliest_dep3_min with
        | none =>
          routes_loop first_leg second_leg third_leg base_minutes latest_minutes ts
        | some t3 => do
          let _dep3_min ← parse_hhmm_to_minutes t3.departure
          let arr3_min ← parse_hhmm_to_minutes t3.arrival
          let rest ←
            routes_loop first_leg second_leg third_leg base_minutes latest_minutes ts
          some (mk_route first_leg second_leg third_leg t1 t2 t3
              dep1_min arr3_min :: rest)

/-- Python string `<=`: lexicographic comparison of code points, a proper
prefix preceding its extensions.  This is the ordering `list.sort` applies
to the `departure_time` keys. -/
def strLe : Str → Str → Bool
  | [], _ => true
  | _ :: _, [] => false
  | a :: as, b :: bs =>
    if a.toNat < b.toNat then true
    else if b.toNat < a.toNat then false
    else strLe as bs

/-- The comparison `routes.sort(key=lambda r: r["departure_time"])` sorts by. -/
def routeKeyLe (r1 r2 : Route) : Prop :=
  strLe r1.departure_time r2.departure_time = true

instance : DecidableRel routeKeyLe :=
  fun r1 r2 => inferInstanceAs (Decidable (_ = true))

/-- The core of the `/api/routes` handler (`app.py` lines 113-224) as a
function of the three legs, the minute-of-day of `now`
(`base_minutes = now.hour * 60 + now.minute`), and the raw `max_offset`
query parameter (`none` when absent).  `latest_minutes` is the
minute-of-day of `now + timedelta(minutes=max_offset)`: adding a
non-negative whole number of minutes to a `datetime` and reading
`hour * 60 + minute` yields `(base_minutes + max_offset) % 1440`.
Python `list.sort` (stable, ascending) is `List.insertionSort`, which is
also a stable ascending sort. -/
def api_routes (first_leg second_leg third_leg : Leg) (base_minutes : Int)
    (raw_max_offset : Option Str) : Option ApiResponse :=
  let max_offset := effective_max_offset raw_max_offset
  let latest_minutes := (base_minutes + max_offset) % 1440
  (routes_loop first_leg second_leg third_leg base_minutes latest_minutes
      first_leg.trains).map
    (fun rs =>
      { max_offset_minutes := max_offset,
        routes := List.insertionSort routeKeyLe rs })

/-! ### Decimal-string lemmas -/

theorem digitChar_toNat {d : Nat} (h : d < 10) : (digitChar d).toNat = 48 + d := by
  revert h; revert d; decide

theorem digitVal_digitChar {d : Nat} (h : d < 10) : digitVal (digitChar d) = some d := by
  revert h; revert d; decide

theorem digitChar_ne_colon {d : Nat} (h : d < 10) : digitChar d ≠ ':' := by
  revert h; revert d; decide

theorem digitChar_ne_minus {d : Nat} (h : d < 10) : digitChar d ≠ '-' := by
  revert h; revert d; decide

theorem digitChar_ne_plus {d : Nat} (h : d < 10) : digitChar d ≠ '+' := by
  revert h; revert d; decide

theorem natDigits_ne_nil (n : Nat) : natDigits n ≠ [] := by
  rw [natDigits_eq]; split <;> simp

theorem natDigits_digits : ∀ n, ∀ c ∈ natDigits n, ∃ d, d < 10 ∧ c = digitChar d := by
  intro n
  induction n using Nat.strong_induction_on with
  | _ n ih =>
    rw [natDigits_eq]
    split
    · next h =>
      intro c hc
      simp only [List.mem_singleton] at hc
      exact ⟨n, h, hc⟩
    · next h =>
      intro c hc
      rw [List.mem_append] at hc
      rcases hc with hc | hc
      · exact ih (n / 10) (Nat.div_lt_self (by omega) (by omega)) c hc
      · simp only [List.mem_singleton] at hc
        exact ⟨n % 10, Nat.mod_lt _ (by omega), hc⟩

theorem digitsValGo_append (xs ys : Str) :
    ∀ acc, digitsValGo acc (xs ++ ys) =
      (digitsValGo acc xs).bind (fun a => digitsValGo a ys) := by
  induction xs with
  | nil => intro acc; simp [digitsValGo]
  | cons c cs ih =>
    intro acc
    simp only [List.cons_append, digitsValGo]
    cases h : digitVal c with
    | none => simp
    | some d => simp [ih]

theorem digitsValGo_natDigits :
    ∀ n acc, digitsValGo acc (natDigits n) =
      some (acc * 10 ^ (natDigits n).length + n) := by
  intro n
  induction n using Nat.strong_induction_on with
  | _ n ih =>
    intro acc
    rw [natDigits_eq]
    split
    · next h =>
      simp only [digitsValGo, digitVal_digitChar h, List.length_singleton, pow_one]
      congr 1
      ring
    · next h =>
      rw [digitsValGo_append]
      rw [ih (n / 10) (Nat.div_lt_self (by omega) (by omega)) acc]
      have hm : n % 10 < 10 := Nat.mod_lt n (by omega)
      simp only [Option.some_bind, digitsValGo, digitVal_digitChar hm,
        List.length_append, List.length_singleton]
      have h1 : 10 * (n / 10) + n % 10 = n := by omega
      congr 1
      calc 10 * (acc * 10 ^ (natDigits (n / 10)).length + n / 10) + n % 10
          = acc * 10 ^ ((natDigits (n / 10)).length + 1) + (10 * (n / 10) + n % 10) := by
            ring
        _ = acc * 10 ^ ((natDigits (n / 10)).length + 1) + n := by rw [h1]

theorem digitsVal_natDigits (n : Nat) : digitsVal (natDigits n) = some n := by
  cases hnd : natDigits n with
  | nil => exact absurd hnd (natDigits_ne_nil n)
  | cons c cs =>
    have : digitsVal (c :: cs) = digitsValGo 0 (c :: cs) := rfl
    rw [this, ← hnd, digitsValGo_natDigits n 0]
    simp

theorem pyInt_not_signed (c : Char) (cs : Str) (hminus : c ≠ '-') (hplus : c ≠ '+') :
    pyInt (c :: cs) = (digitsVal (c :: cs)).map (fun n => (n : Int)) := by
  unfold pyInt
  split
  · next heq => rw [List.cons.injEq] at heq; exact absurd heq.1 hminus
  · next heq => rw [List.cons.injEq] at heq; exact absurd heq.1 hplus
  · rfl

theorem pyInt_natDigits (n : Nat) : pyInt (natDigits n) = some (n : Int) := by
  cases hnd : natDigits n with
  | nil => exact absurd hnd (natDigits_ne_nil n)
  | cons c cs =>
    obtain ⟨d, hd, hcd⟩ := natDigits_digits n c (hnd ▸ List.mem_cons_self c cs)
    rw [pyInt_not_signed c cs (hcd ▸ digitChar_ne_minus hd) (hcd ▸ digitChar_ne_plus hd)]
    rw [← hnd, digitsVal_natDigits]
    rfl

theorem intToString_of_nonneg {i : Int} (h : 0 ≤ i) :
    intToString i = natDigits i.toNat := by
  unfold intToString
  rw [if_neg (by omega)]

theorem pyInt_zero_cons (s : Str) (hs : s ≠ []) :
    pyInt ('0' :: s) = (digitsVal s).map (fun n => (n : Int)) := by
  rw [pyInt_not_signed '0' s (by decide) (by decide)]
  cases s with
  | nil => exact absurd rfl hs
  | cons c cs =>
    have h1 : digitsVal ('0' :: c :: cs) = digitsValGo 0 ('0' :: c :: cs) := rfl
    have h2 : digitsVal (c :: cs) = digitsValGo 0 (c :: cs) := rfl
    rw [h1, h2]
    simp [digitsValGo, digitVal]

theorem pyInt_pad2 {h : Int} (h0 : 0 ≤ h) : pyInt (pad2 h) = some h := by
  unfold pad2
  rw [intToString_of_nonneg h0]
  split
  · rw [pyInt_zero_cons _ (natDigits_ne_nil h.toNat), digitsVal_natDigits]
    simp [Int.toNat_of_nonneg h0]
  · rw [pyInt_natDigits]
    simp [Int.toNat_of_nonneg h0]

theorem pad2_no_colon {h : Int} (h0 : 0 ≤ h) : ':' ∉ pad2 h := by
  unfold pad2
  rw [intToString_of_nonneg h0]
  have hall : ':' ∉ natDigits h.toNat := by
    intro hmem
    obtain ⟨d, hd, hcd⟩ := natDigits_digits h.toNat ':' hmem
    exact digitChar_ne_colon hd hcd.symm
  split
  · intro hmem
    rcases List.mem_cons.1 hmem with h1 | h1
    · exact absurd h1 (by decide)
    · exact hall h1
  · exact hall

theorem splitOnChar_of_not_mem {sep : Char} {s : Str} (h : sep ∉ s) :
    splitOnChar sep s = [s] := by
  induction s with
  | nil => rfl
  | cons c cs ih =>
    rw [splitOnChar, if_neg (fun hc => (List.mem_cons.2 (Or.inl hc.symm) : sep ∈ c :: cs) |> h)]
    rw [ih (fun hc => h (List.mem_cons.2 (Or.inr hc)))]

theorem splitOnChar_append (sep : Char) (a b : Str) (h : sep ∉ a) :
    splitOnChar sep (a ++ sep :: b) = a :: splitOnChar sep b := by
  induction a with
  | nil => simp [splitOnChar]
  | cons c cs ih =>
    rw [List.cons_append, splitOnChar,
      if_neg (fun hc => (List.mem_cons.2 (Or.inl hc.symm) : sep ∈ c :: cs) |> h)]
    rw [ih (fun hc => h (List.mem_cons.2 (Or.inr hc)))]

theorem parse_pad2_pair {h m : Int} (hh : 0 ≤ h) (hm : 0 ≤ m) :
    parse_hhmm_to_minutes (pad2 h ++ ':' :: pad2 m) = some (h * 60 + m) := by
  unfold parse_hhmm_to_minutes
  rw [splitOnChar_append ':' (pad2 h) (pad2 m) (pad2_no_colon hh),
    splitOnChar_of_not_mem (pad2_no_colon hm)]
  simp [pyInt_pad2 hh, pyInt_pad2 hm]

theorem minutes_to_hhmm_decomp (h m : Int) (hm0 : 0 ≤ m) (hm : m < 60) :
    minutes_to_hhmm (h * 60 + m) = pad2 h ++ ':' :: pad2 m := by
  unfold minutes_to_hhmm
  rw [Int.fdiv_eq_ediv _ (by norm_num), Int.fmod_eq_emod _ (by norm_num)]
  have h1 : (h * 60 + m) / 60 = h := by omega
  have h2 : (h * 60 + m) % 60 = m := by omega
  rw [h1, h2]

theorem natDigits_lt_ten {n : Nat} (h : n < 10) : natDigits n = [digitChar n] := by
  rw [natDigits_eq, if_pos h]

theorem natDigits_two_digits {n : Nat} (h10 : 10 ≤ n) (h100 : n < 100) :
    natDigits n = [digitChar (n / 10), digitChar (n % 10)] := by
  rw [natDigits_eq, if_neg (by omega)]
  rw [natDigits_lt_ten (by omega)]
  rfl

theorem pad2_two_digits {h : Int} (h0 : 0 ≤ h) (h100 : h < 100) :
    pad2 h = [digitChar (h.toNat / 10), digitChar (h.toNat % 10)] := by
  unfold pad2
  rw [intToString_of_nonneg h0]
  by_cases hlt : h.toNat < 10
  · rw [natDigits_lt_ten hlt, if_pos (by simp)]
    rw [Nat.div_eq_of_lt hlt, Nat.mod_eq_of_lt hlt]
    rfl
  · rw [natDigits_two_digits (by omega) (by omega), if_neg (by simp)]

theorem natDigits_length_pos (n : Nat) : 1 ≤ (natDigits n).length := by
  cases hnd : natDigits n with
  | nil => exact absurd hnd (natDigits_ne_nil n)
  | cons c cs => simp

theorem intToString_length_pos (i : Int) : 1 ≤ (intToString i).length := by
  unfold intToString
  split
  · simp only [List.length_cons]; omega
  · exact natDigits_length_pos _

theorem pad2_length_ge_two (h : Int) : 2 ≤ (pad2 h).length := by
  unfold pad2
  split
  · next hlt =>
    simp only [List.length_cons]
    have := intToString_length_pos h
    omega
  · next hlt => omega

/-! ### Lexicographic string-order lemmas -/

theorem strLe_total (a b : Str) : strLe a b = true ∨ strLe b a = true := by
  induction a generalizing b with
  | nil => left; rfl
  | cons c cs ih =>
    cases b with
    | nil => right; rfl
    | cons d ds =>
      simp only [strLe]
      rcases Nat.lt_trichotomy c.toNat d.toNat with h | h | h
      · left; rw [if_pos h]
      · rw [if_neg (by omega), if_neg (by omega), if_neg (by omega), if_neg (by omega)]
        exact ih ds
      · right; rw [if_pos h]

theorem strLe_trans : ∀ {a b c : Str}, strLe a b = true → strLe b c = true → strLe a c = true := by
  intro a
  induction a with
  | nil => intro b c _ _; rfl
  | cons x xs ih =>
    intro b c h1 h2
    cases b with
    | nil => simp [strLe] at h1
    | cons y ys =>
      cases c with
      | nil => simp [strLe] at h2
      | cons z zs =>
        simp only [strLe] at h1 h2 ⊢
        split_ifs at h1 h2 ⊢ <;>
          first
          | rfl
          | omega
          | exact ih h1 h2

instance : IsTotal Route routeKeyLe :=
  ⟨fun r1 r2 => strLe_total r1.departure_time r2.departure_time⟩

instance : IsTrans Route routeKeyLe :=
  ⟨fun _ _ _ h1 h2 => strLe_trans h1 h2⟩

theorem strLe_two_digit_blocks {u v : Nat} (hu : u < 100) (hv : v < 100)
    (rest1 rest2 : Str) :
    strLe (digitChar (u / 10) :: digitChar (u % 10) :: rest1)
        (digitChar (v / 10) :: digitChar (v % 10) :: rest2) = true ↔
      (u < v ∨ (u = v ∧ strLe rest1 rest2 = true)) := by
  simp only [strLe]
  rw [digitChar_toNat (show u / 10 < 10 by omega), digitChar_toNat (show v / 10 < 10 by omega),
    digitChar_toNat (show u % 10 < 10 by omega), digitChar_toNat (show v % 10 < 10 by omega)]
  split_ifs with h1 h2 h3 h4
  · exact iff_of_true rfl (Or.inl (by omega))
  · refine iff_of_false (by simp) ?_
    rintro (h | ⟨h, _⟩) <;> omega
  · exact iff_of_true rfl (Or.inl (by omega))
  · refine iff_of_false (by simp) ?_
    rintro (h | ⟨h, _⟩) <;> omega
  · constructor
    · intro h
      exact Or.inr ⟨by omega, h⟩
    · rintro (h | ⟨_, h⟩)
      · omega
      · exact h

theorem strLe_hhmm_iff {a b : Int} (ha0 : 0 ≤ a) (ha : a < 1440)
    (hb0 : 0 ≤ b) (hb : b < 1440) :
    (strLe (minutes_to_hhmm a) (minutes_to_hhmm b) = true) ↔ a ≤ b := by
  rw [show minutes_to_hhmm a = minutes_to_hhmm (a / 60 * 60 + a % 60) by
        rw [show a / 60 * 60 + a % 60 = a by omega],
      show minutes_to_hhmm b = minutes_to_hhmm (b / 60 * 60 + b % 60) by
        rw [show b / 60 * 60 + b % 60 = b by omega]]
  rw [minutes_to_hhmm_decomp (a / 60) (a % 60) (by omega) (by omega),
      minutes_to_hhmm_decomp (b / 60) (b % 60) (by omega) (by omega)]
  rw [pad2_two_digits (show (0:Int) ≤ a / 60 by omega) (show a / 60 < 100 by omega),
      pad2_two_digits (show (0:Int) ≤ b / 60 by omega) (show b / 60 < 100 by omega),
      pad2_two_digits (show (0:Int) ≤ a % 60 by omega) (show a % 60 < 100 by omega),
      pad2_two_digits (show (0:Int) ≤ b % 60 by omega) (show b % 60 < 100 by omega)]
  simp only [List.cons_append, List.nil_append]
  rw [strLe_two_digit_blocks (by omega) (by omega),
      show strLe (':' :: digitChar ((a % 60).toNat / 10) :: digitChar ((a % 60).toNat % 10) :: [])
          (':' :: digitChar ((b % 60).toNat / 10) :: digitChar ((b % 60).toNat % 10) :: []) =
          strLe (digitChar ((a % 60).toNat / 10) :: digitChar ((a % 60).toNat % 10) :: [])
            (digitChar ((b % 60).toNat / 10) :: digitChar ((b % 60).toNat % 10) :: []) by
        simp only [strLe, lt_irrefl, if_false]]
  rw [strLe_two_digit_blocks (by omega) (by omega)]
  simp only [show strLe ([] : Str) ([] : Str) = true from rfl, and_true]
  omega

/-! ### `find_next_train` lemmas -/

theorem find_next_train_step_cases (e : Int) (cand : Option (Train × Int))
    (t : Train) (dep : Int) :
    find_next_train_step e cand t dep = some (t, dep) ∨
      find_next_train_step e cand t dep = cand := by
  unfold find_next_train_step
  split
  · cases cand with
    | none => exact Or.inl rfl
    | some q =>
      obtain ⟨c, cdep⟩ := q
      dsimp only
      split
      · exact Or.inl rfl
      · exact Or.inr rfl
  · exact Or.inr rfl

theorem find_next_train_step_le_cand (e : Int) (cand : Option (Train × Int))
    (t : Train) (dep : Int) (q p : Train × Int) (hc : cand = some q)
    (hs : find_next_train_step e cand t dep = some p) : p.2 ≤ q.2 := by
  subst hc
  obtain ⟨c, cdep⟩ := q
  unfold find_next_train_step at hs
  split at hs
  · dsimp only at hs
    split at hs
    · cases hs; dsimp only; omega
    · cases hs; exact le_refl _
  · cases hs; exact le_refl _

theorem find_next_train_step_le_head (e : Int) (cand : Option (Train × Int))
    (t : Train) (dep : Int) (p : Train × Int) (he : e ≤ dep)
    (hs : find_next_train_step e cand t dep = some p) : p.2 ≤ dep := by
  unfold find_next_train_step at hs
  rw [if_pos he] at hs
  cases cand with
  | none => cases hs; exact le_refl _
  | some q =>
    obtain ⟨c, cdep⟩ := q
    dsimp only at hs
    split at hs
    · cases hs; exact le_refl _
    · next hdc => cases hs; dsimp only; omega

theorem find_next_train_step_none (e : Int) (cand : Option (Train × Int))
    (t : Train) (dep : Int)
    (hs : find_next_train_step e cand t dep = none) : cand = none ∧ dep < e := by
  unfold find_next_train_step at hs
  split at hs
  · cases cand with
    | none => cases hs
    | some q =>
      obtain ⟨c, cdep⟩ := q
      dsimp only at hs
      split at hs <;> cases hs
  · next he => exact ⟨hs, by omega⟩

theorem find_next_train_step_wf (e : Int) (cand : Option (Train × Int))
    (t : Train) (dep : Int) (hpt : parse_hhmm_to_minutes t.departure = some dep)
    (hq : ∀ q, cand = some q →
      parse_hhmm_to_minutes q.1.departure = some q.2 ∧ e ≤ q.2) :
    ∀ p, find_next_train_step e cand t dep = some p →
      parse_hhmm_to_minutes p.1.departure = some p.2 ∧ e ≤ p.2 := by
  intro p hs
  unfold find_next_train_step at hs
  split at hs
  · next he =>
    cases cand with
    | none => cases hs; exact ⟨hpt, he⟩
    | some q =>
      obtain ⟨c, cdep⟩ := q
      dsimp only at hs
      split at hs
      · cases hs; exact ⟨hpt, he⟩
      · cases hs; exact hq (c, cdep) rfl
  · exact hq p (hs ▸ rfl)

theorem find_next_train_go_total (e : Int) :
    ∀ (l : List Train) (cand : Option (Train × Int)),
      (∀ t ∈ l, (parse_hhmm_to_minutes t.departure).isSome) →
      ∃ r, find_next_train_go e l cand = some r := by
  intro l
  induction l with
  | nil => intro cand _; exact ⟨cand, rfl⟩
  | cons t ts ih =>
    intro cand hp
    have ht := hp t (List.mem_cons_self t ts)
    have hts : ∀ t' ∈ ts, (parse_hhmm_to_minutes t'.departure).isSome :=
      fun t' ht' => hp t' (List.mem_cons_of_mem t ht')
    simp only [find_next_train_go]
    cases hpt : parse_hhmm_to_minutes t.departure with
    | none => rw [hpt] at ht; simp at ht
    | some dep => exact ih _ hts

theorem find_next_train_go_min_cand (e : Int) :
    ∀ (l : List Train) (cand : Option (Train × Int)) (p q : Train × Int),
      find_next_train_go e l cand = some (some p) → cand = some q → p.2 ≤ q.2 := by
  intro l
  induction l with
  | nil =>
    intro cand p q hgo hc
    rw [find_next_train_go, hc] at hgo
    cases hgo
    exact le_refl _
  | cons t ts ih =>
    intro cand p q hgo hc
    simp only [find_next_train_go] at hgo
    split at hgo
    · cases hgo
    · next dep hpt =>
      rcases hstep : find_next_train_step e cand t dep with _ | p'
      · -- the new candidate is none: it cannot be, since cand = some q
        obtain ⟨hcn, _⟩ := find_next_train_step_none e cand t dep hstep
        rw [hcn] at hc; cases hc
      · have h1 := ih _ p p' (hstep ▸ hgo) hstep
        have h2 := find_next_train_step_le_cand e cand t dep q p' hc hstep
        omega

theorem find_next_train_go_min_list (e : Int) :
    ∀ (l : List Train) (cand : Option (Train × Int)) (p : Train × Int),
      find_next_train_go e l cand = some (some p) →
      ∀ t' ∈ l, ∀ d', parse_hhmm_to_minutes t'.departure = some d' →
        e ≤ d' → p.2 ≤ d' := by
  intro l
  induction l with
  | nil =>
    intro cand p _ t' ht'
    exact absurd ht' (List.not_mem_nil t')
  | cons t ts ih =>
    intro cand p hgo t' ht' d' hd' hed'
    simp only [find_next_train_go] at hgo
    split at hgo
    · cases hgo
    · next dep hpt =>
      rcases List.mem_cons.1 ht' with rfl | hts
      · -- t' is the head train; its parsed departure is dep
        rw [hpt] at hd'
        cases hd'
        rcases hstep : find_next_train_step e cand t' d' with _ | p'
        · -- new candidate none although the head qualifies: impossible
          obtain ⟨_, hlt⟩ := find_next_train_step_none e cand t' d' hstep
          omega
        · have h1 :=
            find_next_train_go_min_cand e ts _ p p' (hstep ▸ hgo) hstep
          have h2 := find_next_train_step_le_head e cand t' d' p' hed' hstep
          omega
      · exact ih _ p hgo t' hts d' hd' hed'

theorem find_next_train_go_wf (e : Int) :
    ∀ (l : List Train) (cand : Option (Train × Int)) (p : Train × Int),
      (∀ q, cand = some q →
        parse_hhmm_to_minutes q.1.departure = some q.2 ∧ e ≤ q.2) →
      find_next_train_go e l cand = some (some p) →
      parse_hhmm_to_minutes p.1.departure = some p.2 ∧ e ≤ p.2 := by
  intro l
  induction l with
  | nil =>
    intro cand p hq hgo
    rw [find_next_train_go] at hgo
    cases hgo
    exact hq p rfl
  | cons t ts ih =>
    intro cand p hq hgo
    simp only [find_next_train_go] at hgo
    split at hgo
    · cases hgo
    · next dep hpt =>
      exact ih _ p (find_next_train_step_wf e cand t dep hpt hq) hgo

theorem find_next_train_go_mem (e : Int) :
    ∀ (l : List Train) (cand : Option (Train × Int)) (p : Train × Int),
      find_next_train_go e l cand = some (some p) →
      cand = some p ∨ p.1 ∈ l := by
  intro l
  induction l with
  | nil =>
    intro cand p hgo
    rw [find_next_train_go] at hgo
    cases hgo
    exact Or.inl rfl
  | cons t ts ih =>
    intro cand p hgo
    simp only [find_next_train_go] at hgo
    split at hgo
    · cases hgo
    · next dep hpt =>
      rcases ih _ p hgo with hstep | hmem
      · rcases find_next_train_step_cases e cand t dep with hc | hc
        · rw [hc] at hstep
          cases hstep
          exact Or.inr (List.mem_cons_self t ts)
        · rw [hc] at hstep
          exact Or.inl hstep
      · exact Or.inr (List.mem_cons_of_mem t hmem)

theorem find_next_train_go_none (e : Int) :
    ∀ (l : List Train) (cand : Option (Train × Int)),
      find_next_train_go e l cand = some none →
      cand = none ∧
        ∀ t' ∈ l, ∀ d', parse_hhmm_to_minutes t'.departure = some d' → d' < e := by
  intro l
  induction l with
  | nil =>
    intro cand hgo
    rw [find_next_train_go] at hgo
    cases hgo
    exact ⟨rfl, fun t' ht' => absurd ht' (List.not_mem_nil t')⟩
  | cons t ts ih =>
    intro cand hgo
    simp only [find_next_train_go] at hgo
    split at hgo
    · cases hgo
    · next dep hpt =>
      obtain ⟨hstep_none, htail⟩ := ih _ hgo
      obtain ⟨hcn, hlt⟩ := find_next_train_step_none e cand t dep hstep_none
      refine ⟨hcn, fun t' ht' d' hd' => ?_⟩
      rcases List.mem_cons.1 ht' with rfl | hts
      · rw [hpt] at hd'
        cases hd'
        exact hlt
      · exact htail t' hts d' hd'

theorem find_next_train_go_first (e d : Int) (he : e ≤ d) :
    ∀ (l : List Train) (cand : Option (Train × Int)) (t : Train),
      find_next_train_go e l cand = some (some (t, d)) →
      cand = some (t, d) ∨
        (List.find? (fun t' => decide (parse_hhmm_to_minutes t'.departure = some d)) l
            = some t ∧
          ∀ q, cand = some q → d < q.2) := by
  intro l
  induction l with
  | nil =>
    intro cand t hgo
    rw [find_next_train_go] at hgo
    cases hgo
    exact Or.inl rfl
  | cons t1 ts ih =>
    intro cand t hgo
    simp only [find_next_train_go] at hgo
    split at hgo
    · cases hgo
    · next dep1 hpt =>
      rcases ih _ t hgo with hstep | ⟨hfind, hlt⟩
      · -- the final winner is already the candidate after the head step
        unfold find_next_train_step at hstep
        split at hstep
        · next he1 =>
          cases hcand : cand with
          | none =>
            rw [hcand] at hstep
            dsimp only at hstep
            cases hstep
            refine Or.inr ⟨?_, fun q hq => by cases hq⟩
            exact List.find?_cons_of_pos ts (by simp [hpt])
          | some q =>
            obtain ⟨c, cdep⟩ := q
            rw [hcand] at hstep
            dsimp only at hstep
            split at hstep
            · next hdc =>
              cases hstep
              refine Or.inr ⟨List.find?_cons_of_pos ts (by simp [hpt]), ?_⟩
              intro q hq
              cases hq
              exact hdc
            · next hdc =>
              cases hstep
              exact Or.inl rfl
        · exact Or.inl hstep
      · -- the winner comes from the tail; the head does not parse to d
        refine Or.inr ⟨?_, ?_⟩
        · rw [List.find?_cons_of_neg]
          · exact hfind
          · -- the head's departure dep1 is not d
            simp only [hpt, decide_eq_true_eq, ne_eq]
            intro hcon
            cases hcon
            -- if it were, the head step would have kept a candidate with
            -- departure ≤ d, contradicting d < (step result).2 ≤ d
            rcases hstep : find_next_train_step e cand t1 d with _ | p'
            · obtain ⟨_, hlt1⟩ := find_next_train_step_none e cand t1 d hstep
              omega
            · have h1 := hlt p' hstep
              have h2 := find_next_train_step_le_head e cand t1 d p' he hstep
              omega
        · intro q hq
          rcases hstep : find_next_train_step e cand t1 dep1 with _ | p'
          · obtain ⟨hcn, _⟩ := find_next_train_step_none e cand t1 dep1 hstep
            rw [hcn] at hq
            cases hq
          · have h1 := hlt p' hstep
            have h2 := find_next_train_step_le_cand e cand t1 dep1 q p' hq hstep
            omega

theorem find_next_train_some_sound {trains : List Train} {e : Int} {t : Train}
    (h : find_next_train trains e = some (some t)) :
    t ∈ trains ∧ ∃ d, parse_hhmm_to_minutes t.departure = some d ∧ e ≤ d ∧
      (∀ t' ∈ trains, ∀ d', parse_hhmm_to_minutes t'.departure = some d' →
        e ≤ d' → d ≤ d') ∧
      List.find? (fun t' => decide (parse_hhmm_to_minutes t'.departure = some d))
        trains = some t := by
  unfold find_next_train at h
  cases hgo : find_next_train_go e trains none with
  | none => rw [hgo] at h; cases h
  | some r =>
    rw [hgo] at h
    cases r with
    | none => simp at h
    | some p =>
      simp only [Option.map_some', Option.some.injEq] at h
      have hwf := find_next_train_go_wf e trains none p (fun q hq => nomatch hq) hgo
      have hmem := (find_next_train_go_mem e trains none p hgo).resolve_left
        (fun hq => nomatch hq)
      have hmin := find_next_train_go_min_list e trains none p hgo
      have hfirst := (find_next_train_go_first e p.2 hwf.2 trains none p.1
        (by rw [hgo])).resolve_left (fun hq => nomatch hq)
      subst h
      exact ⟨hmem, p.2, hwf.1, hwf.2, hmin, hfirst.1⟩

theorem find_next_train_none_sound {trains : List Train} {e : Int}
    (h : find_next_train trains e = some none) :
    ∀ t' ∈ trains, ∀ d', parse_hhmm_to_minutes t'.departure = some d' → d' < e := by
  unfold find_next_train at h
  cases hgo : find_next_train_go e trains none with
  | none => rw [hgo] at h; cases h
  | some r =>
    rw [hgo] at h
    cases r with
    | none => exact (find_next_train_go_none e trains none hgo).2
    | some p => simp at h

theorem find_next_train_total {trains : List Train} (e : Int)
    (hp : ∀ t ∈ trains, (parse_hhmm_to_minutes t.departure).isSome) :
    ∃ r, find_next_train trains e = some r := by
  obtain ⟨r, hr⟩ := find_next_train_go_total e trains none hp
  exact ⟨r.map Prod.fst, by unfold find_next_train; rw [hr]; rfl⟩

theorem find_next_train_none_complete {trains : List Train} {e : Int}
    (hp : ∀ t ∈ trains, (parse_hhmm_to_minutes t.departure).isSome)
    (hno : ∀ t' ∈ trains, ∀ d', parse_hhmm_to_minutes t'.departure = some d' → d' < e) :
    find_next_train trains e = some none := by
  obtain ⟨r, hr⟩ := find_next_train_go_total e trains none hp
  cases r with
  | none => unfold find_next_train; rw [hr]; rfl
  | some p =>
    exfalso
    have hwf := find_next_train_go_wf e trains none p (fun q hq => nomatch hq) hr
    have hmem := (find_next_train_go_mem e trains none p hr).resolve_left
      (fun hq => nomatch hq)
    have := hno p.1 hmem p.2 hwf.1
    omega

theorem find_next_train_perm_view (e : Int) (l l' : List Train) (hperm : l.Perm l')
    (hp : ∀ t ∈ l, (parse_hhmm_to_minutes t.departure).isSome) :
    (find_next_train l e).map
        (Option.map (fun t => parse_hhmm_to_minutes t.departure)) =
      (find_next_train l' e).map
        (Option.map (fun t => parse_hhmm_to_minutes t.departure)) := by
  have hp' : ∀ t ∈ l', (parse_hhmm_to_minutes t.departure).isSome :=
    fun t ht => hp t (hperm.mem_iff.2 ht)
  obtain ⟨r, hr⟩ := find_next_train_go_total e l none hp
  obtain ⟨r', hr'⟩ := find_next_train_go_total e l' none hp'
  unfold find_next_train
  rw [hr, hr']
  cases r with
  | none =>
    obtain ⟨_, hnoq⟩ := find_next_train_go_none e l none hr
    cases r' with
    | none => rfl
    | some p' =>
      exfalso
      have hwf' := find_next_train_go_wf e l' none p' (fun q hq => nomatch hq) hr'
      have hmem' := (find_next_train_go_mem e l' none p' hr').resolve_left
        (fun hq => nomatch hq)
      have := hnoq p'.1 (hperm.mem_iff.2 hmem') p'.2 hwf'.1
      omega
  | some p =>
    cases r' with
    | none =>
      exfalso
      obtain ⟨_, hnoq'⟩ := find_next_train_go_none e l' none hr'
      have hwf := find_next_train_go_wf e l none p (fun q hq => nomatch hq) hr
      have hmem := (find_next_train_go_mem e l none p hr).resolve_left
        (fun hq => nomatch hq)
      have := hnoq' p.1 (hperm.mem_iff.1 hmem) p.2 hwf.1
      omega
    | some p' =>
      have hwf := find_next_train_go_wf e l none p (fun q hq => nomatch hq) hr
      have hwf' := find_next_train_go_wf e l' none p' (fun q hq => nomatch hq) hr'
      have hmem := (find_next_train_go_mem e l none p hr).resolve_left
        (fun hq => nomatch hq)
      have hmem' := (find_next_train_go_mem e l' none p' hr').resolve_left
        (fun hq => nomatch hq)
      have h1 := find_next_train_go_min_list e l none p hr p'.1
        (hperm.mem_iff.2 hmem') p'.2 hwf'.1 hwf'.2
      have h2 := find_next_train_go_min_list e l' none p' hr' p.1
        (hperm.mem_iff.1 hmem) p.2 hwf.1 hwf.2
      simp only [Option.map_some']
      rw [hwf.1, hwf'.1]
      have : p.2 = p'.2 := le_antisymm h1 h2
      rw [this]

/-! ### Enumerator-loop lemmas -/

theorem routes_loop_cons {l1 l2 l3 : Leg} {b lt : Int} {t1 : Train}
    {ts : List Train} {rs : List Route}
    (h : routes_loop l1 l2 l3 b lt (t1 :: ts) = some rs) :
    (routes_loop l1 l2 l3 b lt ts = some rs) ∨
    ∃ dep1 arr1 t2 arr2 t3 arr3 rs',
      parse_hhmm_to_minutes t1.departure = some dep1 ∧
      b ≤ dep1 ∧ dep1 ≤ lt ∧
      parse_hhmm_to_minutes t1.arrival = some arr1 ∧
      find_next_train l2.trains (arr1 + TRANSFER_MINUTES_tameike)
        = some (some t2) ∧
      parse_hhmm_to_minutes t2.arrival = some arr2 ∧
      find_next_train l3.trains (arr2 + TRANSFER_MINUTES_shimbashi)
        = some (some t3) ∧
      parse_hhmm_to_minutes t3.arrival = some arr3 ∧
      routes_loop l1 l2 l3 b lt ts = some rs' ∧
      rs = mk_route l1 l2 l3 t1 t2 t3 dep1 arr3 :: rs' := by
  simp only [routes_loop] at h
  cases hp1 : parse_hhmm_to_minutes t1.departure with
  | none => rw [hp1] at h; simp at h
  | some dep1 =>
    rw [hp1] at h
    simp only [Option.bind_eq_bind, Option.some_bind] at h
    by_cases hwin : dep1 < b ∨ lt < dep1
    · rw [if_pos hwin] at h
      exact Or.inl h
    · rw [if_neg hwin] at h
      cases hp1a : parse_hhmm_to_minutes t1.arrival with
      | none => rw [hp1a] at h; simp at h
      | some arr1 =>
        rw [hp1a] at h
        simp only [Option.bind_eq_bind, Option.some_bind] at h
        cases hf2 : find_next_train l2.trains (arr1 + TRANSFER_MINUTES_tameike) with
        | none => rw [hf2] at h; simp at h
        | some o2 =>
          rw [hf2] at h
          simp only [Option.bind_eq_bind, Option.some_bind] at h
          cases o2 with
          | none => exact Or.inl h
          | some t2 =>
            dsimp only at h
            cases hp2 : parse_hhmm_to_minutes t2.departure with
            | none => rw [hp2] at h; simp at h
            | some dep2 =>
              rw [hp2] at h
              simp only [Option.bind_eq_bind, Option.some_bind] at h
              cases hp2a : parse_hhmm_to_minutes t2.arrival with
              | none => rw [hp2a] at h; simp at h
              | some arr2 =>
                rw [hp2a] at h
                simp only [Option.bind_eq_bind, Option.some_bind] at h
                cases hf3 : find_next_train l3.trains
                    (arr2 + TRANSFER_MINUTES_shimbashi) with
                | none => rw [hf3] at h; simp at h
                | some o3 =>
                  rw [hf3] at h
                  simp only [Option.bind_eq_bind, Option.some_bind] at h
                  cases o3 with
                  | none => exact Or.inl h
                  | some t3 =>
                    dsimp only at h
                    cases hp3 : parse_hhmm_to_minutes t3.departure with
                    | none => rw [hp3] at h; simp at h
                    | some dep3 =>
                      rw [hp3] at h
                      simp only [Option.bind_eq_bind, Option.some_bind] at h
                      cases hp3a : parse_hhmm_to_minutes t3.arrival with
                      | none => rw [hp3a] at h; simp at h
                      | some arr3 =>
                        rw [hp3a] at h
                        simp only [Option.bind_eq_bind, Option.some_bind] at h
                        cases hrest : routes_loop l1 l2 l3 b lt ts with
                        | none => rw [hrest] at h; simp at h
                        | some rs' =>
                          rw [hrest] at h
                          simp only [Option.bind_eq_bind, Option.some_bind, Option.some.injEq] at h
                          refine Or.inr ⟨dep1, arr1, t2, arr2, t3, arr3, rs',
                            rfl, by omega, by omega, rfl, hf2, hp2a, hf3,
                            hp3a, rfl, h.symm⟩

theorem mk_transfer_inj {leg : Leg} {t t' : Train}
    (h : mk_transfer leg t = mk_transfer leg t') : t = t' := by
  cases t
  cases t'
  simp only [mk_transfer, Transfer.mk.injEq] at h
  simp only [Train.mk.injEq]
  exact ⟨h.2.2.2.1, h.2.2.2.2⟩

theorem routes_loop_mem {l1 l2 l3 : Leg} {b lt : Int} :
    ∀ {ts : List Train} {rs : List Route},
      routes_loop l1 l2 l3 b lt ts = some rs →
      ∀ r ∈ rs, ∃ t1 ∈ ts, ∃ dep1 arr1 t2 arr2 t3 arr3,
        parse_hhmm_to_minutes t1.departure = some dep1 ∧
        b ≤ dep1 ∧ dep1 ≤ lt ∧
        parse_hhmm_to_minutes t1.arrival = some arr1 ∧
        find_next_train l2.trains (arr1 + TRANSFER_MINUTES_tameike)
          = some (some t2) ∧
        parse_hhmm_to_minutes t2.arrival = some arr2 ∧
        find_next_train l3.trains (arr2 + TRANSFER_MINUTES_shimbashi)
          = some (some t3) ∧
        parse_hhmm_to_minutes t3.arrival = some arr3 ∧
        r = mk_route l1 l2 l3 t1 t2 t3 dep1 arr3 := by
  intro ts
  induction ts with
  | nil =>
    intro rs h r hr
    rw [routes_loop] at h
    cases h
    exact absurd hr (List.not_mem_nil r)
  | cons t1 ts ih =>
    intro rs h r hr
    rcases routes_loop_cons h with hskip |
      ⟨dep1, arr1, t2, arr2, t3, arr3, rs', hp1, hb, hle, hp1a, hf2, hp2a,
        hf3, hp3a, hrest, hrs⟩
    · obtain ⟨t1', ht1', rest⟩ := ih hskip r hr
      exact ⟨t1', List.mem_cons_of_mem t1 ht1', rest⟩
    · subst hrs
      rcases List.mem_cons.1 hr with rfl | hr'
      · exact ⟨t1, List.mem_cons_self t1 ts, dep1, arr1, t2, arr2, t3, arr3,
          hp1, hb, hle, hp1a, hf2, hp2a, hf3, hp3a, rfl⟩
      · obtain ⟨t1', ht1', rest⟩ := ih hrest r hr'
        exact ⟨t1', List.mem_cons_of_mem t1 ht1', rest⟩

theorem routes_loop_count {l1 l2 l3 : Leg} {b lt : Int} :
    ∀ {ts : List Train} {rs : List Route},
      routes_loop l1 l2 l3 b lt ts = some rs →
      ∀ tr : Train,
        (rs.filter
          (fun r => decide (r.transfers.head? = some (mk_transfer l1 tr)))).length
          ≤ ts.count tr := by
  intro ts
  induction ts with
  | nil =>
    intro rs h tr
    rw [routes_loop] at h
    cases h
    simp
  | cons t1 ts ih =>
    intro rs h tr
    rcases routes_loop_cons h with hskip |
      ⟨dep1, arr1, t2, arr2, t3, arr3, rs', _, _, _, _, _, _, _, _, hrest, hrs⟩
    · exact le_trans (ih hskip tr) (by rw [List.count_cons]; omega)
    · subst hrs
      by_cases hpred :
          (mk_route l1 l2 l3 t1 t2 t3 dep1 arr3).transfers.head?
            = some (mk_transfer l1 tr)
      · have htr : t1 = tr := by
          simp only [mk_route, List.head?_cons, Option.some.injEq] at hpred
          exact mk_transfer_inj hpred
        subst htr
        rw [List.filter_cons_of_pos (by simp [hpred])]
        simp only [List.length_cons, List.count_cons_self]
        exact Nat.succ_le_succ (ih hrest t1)
      · rw [List.filter_cons_of_neg (by simp [hpred])]
        exact le_trans (ih hrest tr) (by rw [List.count_cons]; omega)

theorem routes_loop_empty_of_lt {l1 l2 l3 : Leg} {b lt : Int} (hbl : lt < b) :
    ∀ {ts : List Train} {rs : List Route},
      routes_loop l1 l2 l3 b lt ts = some rs → rs = [] := by
  intro ts
  induction ts with
  | nil =>
    intro rs h
    rw [routes_loop] at h
    cases h
    rfl
  | cons t1 ts ih =>
    intro rs h
    rcases routes_loop_cons h with hskip |
      ⟨dep1, _, _, _, _, _, _, _, hb, hle, _⟩
    · exact ih hskip
    · omega

theorem api_routes_some {l1 l2 l3 : Leg} {base : Int} {raw : Option Str}
    {resp : ApiResponse} (h : api_routes l1 l2 l3 base raw = some resp) :
    ∃ rs, routes_loop l1 l2 l3 base
        ((base + effective_max_offset raw) % 1440) l1.trains = some rs ∧
      resp.max_offset_minutes = effective_max_offset raw ∧
      resp.routes = List.insertionSort routeKeyLe rs := by
  simp only [api_routes] at h
  rw [Option.map_eq_some'] at h
  obtain ⟨rs, hrs, hresp⟩ := h
  exact ⟨rs, hrs, by rw [← hresp], by rw [← hresp]⟩

theorem effective_max_offset_bounds (raw : Option Str) :
    0 ≤ effective_max_offset raw ∧ effective_max_offset raw ≤ 60 := by
  unfold effective_max_offset
  cases raw with
  | none => dsimp only; split_ifs <;> omega
  | some s => dsimp only; split_ifs <;> omega

/-! ### Claim theorems -/

/-- C7: for every string of the form "HH:MM" with two zero-padded
two-digit fields, `0 ≤ H ≤ 23` and `0 ≤ M ≤ 59`, formatting the parse
result round-trips to the original string:
`minutes_to_hhmm (parse_hhmm_to_minutes s) = s`. -/
theorem C7_parse_format_roundtrip (s : Str)
    (hs : ∃ h m : Int, 0 ≤ h ∧ h ≤ 23 ∧ 0 ≤ m ∧ m ≤ 59 ∧
      s = pad2 h ++ ':' :: pad2 m) :
    (parse_hhmm_to_minutes s).map minutes_to_hhmm = some s := by
  obtain ⟨h, m, hh0, hh, hm0, hm, rfl⟩ := hs
  rw [parse_pad2_pair hh0 hm0]
  simp only [Option.map_some']
  rw [minutes_to_hhmm_decomp h m hm0 (by omega)]

/-- Witness for C7 at the concrete string "07:05". -/
theorem C7_parse_format_roundtrip_witness :
    (parse_hhmm_to_minutes ("07:05").data).map minutes_to_hhmm
      = some (("07:05").data) :=
  C7_parse_format_roundtrip ("07:05").data
    ⟨7, 5, by decide, by decide, by decide, by decide, by decide⟩

/-- C9: for every `minutes ≥ 1440`, `minutes_to_hhmm` renders the hour
field as `minutes // 60` (which is `≥ 24`, not reduced modulo 24) and the
minute field as `minutes % 60`, each zero-padded to at least two digits,
with no clamping or day wraparound: parsing the rendered string returns
the original value. -/
theorem C9_minutes_to_hhmm_no_wrap (n : Int) (hn : 1440 ≤ n) :
    minutes_to_hhmm n = pad2 (n.fdiv 60) ++ ':' :: pad2 (n.fmod 60) ∧
    24 ≤ n.fdiv 60 ∧
    pyInt (pad2 (n.fdiv 60)) = some (n.fdiv 60) ∧
    pyInt (pad2 (n.fmod 60)) = some (n.fmod 60) ∧
    2 ≤ (pad2 (n.fdiv 60)).length ∧
    2 ≤ (pad2 (n.fmod 60)).length ∧
    parse_hhmm_to_minutes (minutes_to_hhmm n) = some n := by
  have hd : n.fdiv 60 = n / 60 := Int.fdiv_eq_ediv _ (by norm_num)
  have hm : n.fmod 60 = n % 60 := Int.fmod_eq_emod _ (by norm_num)
  have h1 : 0 ≤ n / 60 := by omega
  have h2 : 0 ≤ n % 60 := by omega
  refine ⟨rfl, by omega, ?_, ?_, pad2_length_ge_two _, pad2_length_ge_two _, ?_⟩
  · rw [hd]; exact pyInt_pad2 h1
  · rw [hm]; exact pyInt_pad2 h2
  · unfold minutes_to_hhmm
    rw [hd, hm, parse_pad2_pair h1 h2]
    congr 1
    omega

/-- Witness for C9 at `minutes = 1500` (rendered "25:00"). -/
theorem C9_minutes_to_hhmm_no_wrap_witness :
    minutes_to_hhmm 1500
        = pad2 ((1500:Int).fdiv 60) ++ ':' :: pad2 ((1500:Int).fmod 60) ∧
    24 ≤ (1500:Int).fdiv 60 ∧
    pyInt (pad2 ((1500:Int).fdiv 60)) = some ((1500:Int).fdiv 60) ∧
    pyInt (pad2 ((1500:Int).fmod 60)) = some ((1500:Int).fmod 60) ∧
    2 ≤ (pad2 ((1500:Int).fdiv 60)).length ∧
    2 ≤ (pad2 ((1500:Int).fmod 60)).length ∧
    parse_hhmm_to_minutes (minutes_to_hhmm 1500) = some 1500 :=
  C9_minutes_to_hhmm_no_wrap 1500 (by decide)

/-- C8: the effective `max_offset` is 30 when absent, 3 when the supplied
string does not parse as an integer, and otherwise the supplied integer
clamped into `[0, 60]` (`-5 ↦ 0`, `200 ↦ 60`); the effective value is
echoed in the response, and after the fallback the request proceeds
exactly as with the value 3. -/
theorem C8_max_offset_handling :
    effective_max_offset none = 30 ∧
    (∀ s : Str, pyInt s = none → effective_max_offset (some s) = 3) ∧
    (∀ (s : Str) (v : Int), pyInt s = some v →
      effective_max_offset (some s) = max 0 (min v 60)) ∧
    effective_max_offset (some ("-5").data) = 0 ∧
    effective_max_offset (some ("200").data) = 60 ∧
    (∀ (l1 l2 l3 : Leg) (base : Int) (raw : Option Str) (resp : ApiResponse),
      api_routes l1 l2 l3 base raw = some resp →
      resp.max_offset_minutes = effective_max_offset raw) ∧
    (∀ (l1 l2 l3 : Leg) (base : Int) (s : Str), pyInt s = none →
      api_routes l1 l2 l3 base (some s)
        = api_routes l1 l2 l3 base (some ('3' :: []))) := by
  refine ⟨rfl, ?_, ?_, by decide, by decide, ?_, ?_⟩
  · intro s hs
    unfold effective_max_offset
    dsimp only
    rw [hs]
    rfl
  · intro s v hs
    unfold effective_max_offset
    dsimp only
    rw [hs]
    simp only [Option.getD_some]
    split_ifs <;> omega
  · intro l1 l2 l3 base raw resp h
    obtain ⟨rs, _, hmax, _⟩ := api_routes_some h
    exact hmax
  · intro l1 l2 l3 base s hs
    have heq : effective_max_offset (some s)
        = effective_max_offset (some ('3' :: [])) := by
      unfold effective_max_offset
      dsimp only
      rw [hs]
      rfl
    unfold api_routes
    rw [heq]

/-- Witness for C8: the fallback and default at concrete inputs. -/
theorem C8_max_offset_handling_witness :
    effective_max_offset (some ("abc").data) = 3 ∧
    effective_max_offset none = 30 :=
  ⟨C8_max_offset_handling.2.1 ("abc").data (by decide),
   C8_max_offset_handling.1⟩

/-- The leg-1 timetable of the spec's concrete scenario. -/
def demo_leg1 : Leg :=
  ⟨("市ヶ谷").data, ("溜池山王").data, ("有楽町線→南北線").data,
    [⟨("07:00").data, ("07:12").data⟩]⟩

/-- The leg-2 timetable of the spec's concrete scenario. -/
def demo_leg2 : Leg :=
  ⟨("溜池山王").data, ("新橋").data, ("銀座線").data,
    [⟨("07:17").data, ("07:30").data⟩, ⟨("07:40").data, ("07:55").data⟩]⟩

/-- The leg-3 timetable of the spec's concrete scenario. -/
def demo_leg3 : Leg :=
  ⟨("新橋").data, ("鎌倉").data, ("横須賀線").data,
    [⟨("07:37").data, ("08:05").data⟩, ⟨("08:10").data, ("08:40").data⟩]⟩

/-- The single itinerary the scenario is expected to produce. -/
def demo_route : Route :=
  { departure_time := ("07:00").data,
    arrival_time := ("08:05").data,
    total_duration := ("65分").data,
    fare := ("（料金未設定）").data,
    transfers := [
      ⟨("市ヶ谷").data, ("溜池山王").data, ("有楽町線→南北線").data,
        ("07:00").data, ("07:12").data⟩,
      ⟨("溜池山王").data, ("新橋").data, ("銀座線").data,
        ("07:17").data, ("07:30").data⟩,
      ⟨("新橋").data, ("鎌倉").data, ("横須賀線").data,
        ("07:37").data, ("08:05").data⟩] }

/-- The response the scenario is expected to produce. -/
def demo_response : ApiResponse :=
  { max_offset_minutes := 30, routes := [demo_route] }

/-- C6: on the concrete scenario — leg1 `[{07:00,07:12}]`, transfers 5
and 7 minutes, leg2 `[{07:17,07:30},{07:40,07:55}]`, leg3
`[{07:37,08:05},{08:10,08:40}]`, window `[07:00, 07:30]` (base 420,
default offset 30) — the enumeration returns exactly one itinerary:
leg-1 departure 07:00, leg-2 train {07:17,07:30}, leg-3 train
{07:37,08:05}, arrival 08:05, total duration "65分". -/
theorem C6_concrete_scenario :
    api_routes demo_leg1 demo_leg2 demo_leg3 420 none = some demo_response := by
  decide

/-- C1: `find_next_train` never raises on well-formed departures, returns
`None` exactly when no train departs at or after the bound, otherwise
returns the first-encountered train of minimal departure `≥` the bound,
and its result's departure value does not depend on the list's order. -/
theorem C1_find_next_train_correct (trains : List Train) (e : Int)
    (hp : ∀ t ∈ trains, (parse_hhmm_to_minutes t.departure).isSome) :
    (∃ r, find_next_train trains e = some r) ∧
    (find_next_train trains e = some none ↔
      ∀ t' ∈ trains, ∀ d', parse_hhmm_to_minutes t'.departure = some d' →
        d' < e) ∧
    (∀ t, find_next_train trains e = some (some t) →
      t ∈ trains ∧ ∃ d, parse_hhmm_to_minutes t.departure = some d ∧ e ≤ d ∧
        (∀ t' ∈ trains, ∀ d', parse_hhmm_to_minutes t'.departure = some d' →
          e ≤ d' → d ≤ d') ∧
        List.find? (fun t' => decide (parse_hhmm_to_minutes t'.departure = some d))
          trains = some t) ∧
    (∀ trains', trains.Perm trains' →
      (find_next_train trains e).map
          (Option.map (fun t => parse_hhmm_to_minutes t.departure)) =
        (find_next_train trains' e).map
          (Option.map (fun t => parse_hhmm_to_minutes t.departure))) := by
  refine ⟨find_next_train_total e hp,
    ⟨fun h => find_next_train_none_sound h, fun h => find_next_train_none_complete hp h⟩,
    fun t ht => ?_,
    fun trains' hperm => find_next_train_perm_view e trains trains' hperm hp⟩
  obtain ⟨hmem, d, hd, hed, hmin, hfirst⟩ := find_next_train_some_sound ht
  exact ⟨hmem, d, hd, hed, hmin, hfirst⟩

/-- Witness for C1 on an unsorted two-train list with bound 437
(07:17): the scan picks {07:17,07:30} even though it is listed second. -/
theorem C1_find_next_train_correct_witness :
    (∃ r, find_next_train
      [⟨("07:40").data, ("07:55").data⟩, ⟨("07:17").data, ("07:30").data⟩]
      437 = some r) ∧
    find_next_train
      [⟨("07:40").data, ("07:55").data⟩, ⟨("07:17").data, ("07:30").data⟩]
      437 = some (some ⟨("07:17").data, ("07:30").data⟩) :=
  ⟨(C1_find_next_train_correct
      [⟨("07:40").data, ("07:55").data⟩, ⟨("07:17").data, ("07:30").data⟩]
      437 (by decide)).1,
   by decide⟩

/-- C2: every itinerary returned by `api_routes` has a leg-1 departure
`d` with `base_minutes ≤ d ≤ base_minutes + max_offset` (closed window),
where `max_offset` is the effective (echoed) offset; leg-1 trains
outside this window contribute no itinerary. -/
theorem C2_window_bound (l1 l2 l3 : Leg) (base : Int) (raw : Option Str)
    (resp : ApiResponse) (hb0 : 0 ≤ base)
    (h : api_routes l1 l2 l3 base raw = some resp) :
    resp.max_offset_minutes = effective_max_offset raw ∧
    ∀ r ∈ resp.routes, ∃ tr1 d,
      r.transfers.head? = some tr1 ∧
      parse_hhmm_to_minutes tr1.departure = some d ∧
      base ≤ d ∧ d ≤ base + effective_max_offset raw := by
  obtain ⟨rs, hrs, hmax, hroutes⟩ := api_routes_some h
  refine ⟨hmax, ?_⟩
  intro r hr
  rw [hroutes] at hr
  have hr' : r ∈ rs := (List.perm_insertionSort routeKeyLe rs).mem_iff.1 hr
  obtain ⟨t1, ht1, dep1, arr1, t2, arr2, t3, arr3, hp1, hb, hle, hp1a, hf2,
    hp2a, hf3, hp3a, rfl⟩ := routes_loop_mem hrs r hr'
  refine ⟨mk_transfer l1 t1, dep1, rfl, hp1, hb, ?_⟩
  have hoff := effective_max_offset_bounds raw
  omega

/-- Witness for C2 on the concrete scenario. -/
theorem C2_window_bound_witness :
    demo_response.max_offset_minutes = effective_max_offset none ∧
    ∀ r ∈ demo_response.routes, ∃ tr1 d,
      r.transfers.head? = some tr1 ∧
      parse_hhmm_to_minutes tr1.departure = some d ∧
      (420:Int) ≤ d ∧ d ≤ 420 + effective_max_offset none :=
  C2_window_bound demo_leg1 demo_leg2 demo_leg3 420 none demo_response
    (by decide) (by decide)

/-- C3: in every returned itinerary the leg-2 departure is at least the
leg-1 arrival plus the 5-minute 溜池山王 buffer and the leg-3 departure is
at least the leg-2 arrival plus the 7-minute 新橋 buffer; every itinerary
carries a full three-transfer chain (a failed matcher lookup yields no
partial result). -/
theorem C3_transfer_buffers (l1 l2 l3 : Leg) (base : Int) (raw : Option Str)
    (resp : ApiResponse) (h : api_routes l1 l2 l3 base raw = some resp) :
    ∀ r ∈ resp.routes, ∃ tr1 tr2 tr3 arr1 dep2 arr2 dep3,
      r.transfers = [tr1, tr2, tr3] ∧
      parse_hhmm_to_minutes tr1.arrival = some arr1 ∧
      parse_hhmm_to_minutes tr2.departure = some dep2 ∧
      arr1 + TRANSFER_MINUTES_tameike ≤ dep2 ∧
      parse_hhmm_to_minutes tr2.arrival = some arr2 ∧
      parse_hhmm_to_minutes tr3.departure = some dep3 ∧
      arr2 + TRANSFER_MINUTES_shimbashi ≤ dep3 := by
  intro r hr
  obtain ⟨rs, hrs, _, hroutes⟩ := api_routes_some h
  rw [hroutes] at hr
  have hr' : r ∈ rs := (List.perm_insertionSort routeKeyLe rs).mem_iff.1 hr
  obtain ⟨t1, ht1, dep1, arr1, t2, arr2, t3, arr3, hp1, hb, hle, hp1a, hf2,
    hp2a, hf3, hp3a, rfl⟩ := routes_loop_mem hrs r hr'
  obtain ⟨_, d2, hd2, hd2le, _, _⟩ := find_next_train_some_sound hf2
  obtain ⟨_, d3, hd3, hd3le, _, _⟩ := find_next_train_some_sound hf3
  exact ⟨mk_transfer l1 t1, mk_transfer l2 t2, mk_transfer l3 t3,
    arr1, d2, arr2, d3, rfl, hp1a, hd2, hd2le, hp2a, hd3, hd3le⟩

/-- Witness for C3 on the concrete scenario's single itinerary. -/
theorem C3_transfer_buffers_witness :
    ∃ tr1 tr2 tr3 arr1 dep2 arr2 dep3,
      demo_route.transfers = [tr1, tr2, tr3] ∧
      parse_hhmm_to_minutes tr1.arrival = some arr1 ∧
      parse_hhmm_to_minutes tr2.departure = some dep2 ∧
      arr1 + TRANSFER_MINUTES_tameike ≤ dep2 ∧
      parse_hhmm_to_minutes tr2.arrival = some arr2 ∧
      parse_hhmm_to_minutes tr3.departure = some dep3 ∧
      arr2 + TRANSFER_MINUTES_shimbashi ≤ dep3 :=
  C3_transfer_buffers demo_leg1 demo_leg2 demo_leg3 420 none demo_response
    (by decide) demo_route (by decide)

/-- C4: the returned itinerary list is sorted non-decreasingly by the
`departure_time` clock-text key under lexicographic string order
(`routeKeyLe`), and for minute values within one day that lexicographic
order on `minutes_to_hhmm` output coincides with the numeric order. -/
theorem C4_sorted_by_departure_text :
    (∀ (l1 l2 l3 : Leg) (base : Int) (raw : Option Str) (resp : ApiResponse),
      api_routes l1 l2 l3 base raw = some resp →
      List.Sorted routeKeyLe resp.routes) ∧
    (∀ a b : Int, 0 ≤ a → a < 1440 → 0 ≤ b → b < 1440 →
      ((strLe (minutes_to_hhmm a) (minutes_to_hhmm b) = true) ↔ a ≤ b)) := by
  constructor
  · intro l1 l2 l3 base raw resp h
    obtain ⟨rs, _, _, hroutes⟩ := api_routes_some h
    rw [hroutes]
    exact List.sorted_insertionSort routeKeyLe rs
  · intro a b ha0 ha hb0 hb
    exact strLe_hhmm_iff ha0 ha hb0 hb

/-- Witness for C4: sortedness of the scenario response and the order
coincidence at 420 (07:00) and 450 (07:30). -/
theorem C4_sorted_by_departure_text_witness :
    List.Sorted routeKeyLe demo_response.routes ∧
    ((strLe (minutes_to_hhmm 420) (minutes_to_hhmm 450) = true) ↔
      (420:Int) ≤ 450) :=
  ⟨C4_sorted_by_departure_text.1 demo_leg1 demo_leg2 demo_leg3 420 none
      demo_response (by decide),
   C4_sorted_by_departure_text.2 420 450 (by decide) (by decide) (by decide)
      (by decide)⟩

/-- C5: when the leg-1 timetable has no duplicate rows, no leg-1 train
appears in more than one returned itinerary — each leg-1 candidate is
chained to at most one greedy leg-2/leg-3 completion. -/
theorem C5_at_most_one_per_leg1_train (l1 l2 l3 : Leg) (base : Int)
    (raw : Option Str) (resp : ApiResponse) (hnd : l1.trains.Nodup)
    (h : api_routes l1 l2 l3 base raw = some resp) :
    ∀ tr : Train,
      (resp.routes.filter
        (fun r => decide (r.transfers.head? = some (mk_transfer l1 tr)))).length
        ≤ 1 := by
  intro tr
  obtain ⟨rs, hrs, _, hroutes⟩ := api_routes_some h
  rw [hroutes]
  have hlen := ((List.perm_insertionSort routeKeyLe rs).filter
    (fun r => decide (r.transfers.head? = some (mk_transfer l1 tr)))).length_eq
  rw [hlen]
  exact le_trans (routes_loop_count hrs tr)
    (List.nodup_iff_count_le_one.1 hnd tr)

/-- Witness for C5 on the concrete scenario at the leg-1 train
{07:00,07:12}. -/
theorem C5_at_most_one_per_leg1_train_witness :
    (demo_response.routes.filter
      (fun r => decide (r.transfers.head?
        = some (mk_transfer demo_leg1 ⟨("07:00").data, ("07:12").data⟩)))).length
      ≤ 1 :=
  C5_at_most_one_per_leg1_train demo_leg1 demo_leg2 demo_leg3 420 none
    demo_response (by decide) (by decide) ⟨("07:00").data, ("07:12").data⟩

/-- C10: when `base_minutes + max_offset ≥ 1440` the computed
`latest_minutes` wraps to `(base + offset) mod 1440`, which is strictly
below `base_minutes`, so the window filter rejects every leg-1 train and
the endpoint returns an empty itinerary list. -/
theorem C10_midnight_wrap_empty (l1 l2 l3 : Leg) (base : Int)
    (raw : Option Str) (hb0 : 0 ≤ base) (hb : base ≤ 1439)
    (hwrap : 1440 ≤ base + effective_max_offset raw) :
    (base + effective_max_offset raw) % 1440
        = base + effective_max_offset raw - 1440 ∧
    (base + effective_max_offset raw) % 1440 < base ∧
    ∀ resp, api_routes l1 l2 l3 base raw = some resp → resp.routes = [] := by
  have hoff := effective_max_offset_bounds raw
  have h1 : (base + effective_max_offset raw) % 1440
      = base + effective_max_offset raw - 1440 := by omega
  have h2 : (base + effective_max_offset raw) % 1440 < base := by omega
  refine ⟨h1, h2, ?_⟩
  intro resp h
  obtain ⟨rs, hrs, _, hroutes⟩ := api_routes_some h
  have hnil : rs = [] := routes_loop_empty_of_lt h2 hrs
  rw [hroutes, hnil]
  rfl

/-- Witness for C10 at base 1430 (23:50) with the default offset 30:
the window wraps past midnight and the scenario timetable yields an
empty route list. -/
theorem C10_midnight_wrap_empty_witness :
    ((1430 + effective_max_offset none) % 1440
        = 1430 + effective_max_offset none - 1440 ∧
      (1430 + effective_max_offset none) % 1440 < 1430 ∧
      ∀ resp, api_routes demo_leg1 demo_leg2 demo_leg3 1430 none = some resp →
        resp.routes = []) ∧
    api_routes demo_leg1 demo_leg2 demo_leg3 1430 none
      = some { max_offset_minutes := 30, routes := [] } :=
  ⟨C10_midnight_wrap_empty demo_leg1 demo_leg2 demo_leg3 1430 none
      (by decide) (by decide) (by decide),
   by decide⟩
